import Mathlib

set_option maxHeartbeats 2000000
set_option maxRecDepth 8000

/-! Shallow embedding of the in-memory event index of
`crates/nostr-database/src/index.rs` (rust-nostr).

Modelling conventions: machine integers and timestamps are `Nat`; 32-byte
event ids are `Nat` (standing for the hash with its byte-lexicographic
order); public keys are byte lists (`List Nat`); `BTreeSet<EventIndex>` is a
list kept sorted by the source comparator, with `btreeInsert` refusing an
element whose ordering key is already present; `HashSet` is a list with
set-insertion; `HashMap<Coordinate, Timestamp>` is an association list with
overwriting insertion.  Wall-clock reads (`Timestamp::now()`,
`Event::is_expired()`) are passed in explicitly as a `now : Nat` argument. -/

/-- First `PUBLIC_KEY_PREFIX_SIZE = 8` bytes of a serialized 32-byte x-only
public key (`PublicKeyPrefix::from`). -/
def pfxOf (pk : List Nat) : List Nat := pk.take 8

/-- Coordinate of a parameterized-replaceable slot (`nostr::nips::nip01::Coordinate`):
kind, author public key, identifier. -/
structure Coordinate where
  kind : Nat
  pubkey : List Nat
  identifier : String
deriving DecidableEq, Repr

/-- Compact indexed record (`EventIndex` in index.rs): timestamp, event id,
author public-key prefix, kind, per-event tag index. -/
structure EventIndex where
  created_at : Nat
  event_id : Nat
  pubkey : List Nat
  kind : Nat
  tags : List (String × List String)
deriving DecidableEq, Repr

/-- An incoming (already verified) event as consumed by the index: id, author
public key, timestamp, kind, raw tag list, and the helper outputs the
admission code consumes.  `etags` models `event_ids()` (ids referenced by
`e` tags) and `acoords` models `coordinates()` (decoded `a` tags); both
helpers live in the `nostr` crate, which is not under `src/`, so they are
modelled from the spec as explicit fields.  `expiration` models the NIP-40
expiration tag consulted by `is_expired`. -/
structure Event where
  id : Nat
  pubkey : List Nat
  created_at : Nat
  kind : Nat
  tags : List (List String)
  etags : List Nat
  acoords : List Coordinate
  expiration : Option Nat
deriving DecidableEq, Repr

/-- Modelled from the spec (§6): ephemeral kinds are those in [20000, 30000). -/
def isEphemeral (k : Nat) : Bool := decide (20000 ≤ k ∧ k < 30000)

/-- Modelled from the spec (§6): replaceable kinds are 0, 3 and [10000, 20000). -/
def isReplaceable (k : Nat) : Bool := decide (k = 0 ∨ k = 3 ∨ (10000 ≤ k ∧ k < 20000))

/-- Modelled from the spec (§6): parameterized-replaceable kinds are [30000, 40000). -/
def isParameterizedReplaceable (k : Nat) : Bool := decide (30000 ≤ k ∧ k < 40000)

/-- Modelled from the spec (§4.5): an event is expired relative to wall-clock
`now` when it carries an expiration timestamp that has passed. -/
def isExpired (e : Event) (now : Nat) : Bool :=
  match e.expiration with
  | some t => decide (t ≤ now)
  | none => false

/-- Tag names indexed by the tag index are single letters of the closed
alphabet a-z, A-Z (spec §4.2). -/
def singleLetter (s : String) : Bool :=
  match s.toList with
  | [c] => c.isAlpha
  | _ => false

/-- Insert a value into the set stored under a tag name in a tag map. -/
def tagMapInsert (k : String) (v : String) : List (String × List String) → List (String × List String)
  | [] => [(k, [v])]
  | p :: rest => if p.1 = k then (p.1, if v ∈ p.2 then p.2 else p.2 ++ [v]) :: rest
                 else p :: tagMapInsert k v rest

/-- Modelled from the spec (§4.2, `TagIndexes::from` in tag_indexes.rs, not
under `src/`): for each tag whose name is a single letter and whose first
value is non-empty, insert that first value into the set keyed by the name. -/
def tagIndexes (tags : List (List String)) : List (String × List String) :=
  tags.foldl (fun m t =>
    match t with
    | name :: v :: _ => if singleLetter name && decide (v ≠ "") then tagMapInsert name v m else m
    | _ => m) []

/-- Modelled from the spec (§4.5.4): `identifier()` returns the first value of
the first `d` tag; a missing or empty identifier counts as absent. -/
def identifier (e : Event) : Option String :=
  match e.tags.find? (fun t => decide (t.head? = some "d")) with
  | some t =>
    match t.get? 1 with
    | some v => if v = "" then none else some v
    | none => none
  | none => none

/-- Compiled filter (`FilterIndex` in index.rs): sets of ids, author prefixes
and kinds, inclusive time bounds, and generic single-letter tag constraints. -/
structure FilterIndex where
  ids : List Nat := []
  authors : List (List Nat) := []
  kinds : List Nat := []
  since : Option Nat := none
  untl : Option Nat := none
  generic_tags : List (String × List String) := []

/-- The `ids_match` check: an empty id set is no constraint. -/
def idsMatch (f : FilterIndex) (e : EventIndex) : Bool :=
  decide (f.ids = []) || decide (e.event_id ∈ f.ids)

/-- The `authors_match` check: an empty author set is no constraint. -/
def authorsMatch (f : FilterIndex) (e : EventIndex) : Bool :=
  decide (f.authors = []) || decide (e.pubkey ∈ f.authors)

/-- The `kind_match` check: an empty kind set is no constraint. -/
def kindMatch (f : FilterIndex) (k : Nat) : Bool :=
  decide (f.kinds = []) || decide (k ∈ f.kinds)

/-- Lookup of the value set stored under a tag name (`TagIndexes::get`). -/
def tagsGet (m : List (String × List String)) (k : String) : Option (List String) :=
  match m.find? (fun p => decide (p.1 = k)) with
  | some p => some p.2
  | none => none

/-- The `tag_match` check: every tag letter present in the filter must name a
tag of the event whose value set intersects the filter set. -/
def tagMatch (f : FilterIndex) (e : EventIndex) : Bool :=
  if f.generic_tags = [] then true
  else if e.tags = [] then false
  else f.generic_tags.all (fun p =>
    match tagsGet e.tags p.1 with
    | some valset => p.2.any (fun v => decide (v ∈ valset))
    | none => false)

/-- `FilterIndex::match_event`: conjunction of the per-field checks, in source
order. -/
def matchEvent (f : FilterIndex) (e : EventIndex) : Bool :=
  idsMatch f e
    && (match f.since with | none => true | some t => decide (t ≤ e.created_at))
    && (match f.untl with | none => true | some t => decide (e.created_at ≤ t))
    && kindMatch f e.kind
    && authorsMatch f e
    && tagMatch f e

/-- Result of one admission (`EventIndexResult`). -/
structure EventIndexResult where
  to_store : Bool
  to_discard : List Nat
deriving DecidableEq, Repr

/-- The three guarded collections of `DatabaseIndexes`: the ordered entry set,
the tombstoned ids, and the per-coordinate deletion timestamps. -/
structure DatabaseIndexes where
  index : List EventIndex
  deleted_ids : List Nat
  deleted_coordinates : List (Coordinate × Nat)
deriving DecidableEq, Repr

/-- The empty index (`DatabaseIndexes::new`). -/
def emptyIndexes : DatabaseIndexes := { index := [], deleted_ids := [], deleted_coordinates := [] }

/-- Strict form of the `Ord for EventIndex` comparator: `created_at`
descending, ties broken by `event_id` ascending. -/
def keyLt (a b : EventIndex) : Prop :=
  b.created_at < a.created_at ∨ (a.created_at = b.created_at ∧ a.event_id < b.event_id)

instance (a b : EventIndex) : Decidable (keyLt a b) := by
  unfold keyLt; exact inferInstance

/-- Equality under the `Ord for EventIndex` comparator: same timestamp and id. -/
def keyEq (a b : EventIndex) : Prop :=
  a.created_at = b.created_at ∧ a.event_id = b.event_id

instance (a b : EventIndex) : Decidable (keyEq a b) := by
  unfold keyEq; exact inferInstance

/-- `BTreeSet<EventIndex>::insert` on the sorted entry list: walk to the
insertion point, and refuse the new element if an entry with the same
ordering key is already present. -/
def btreeInsert (e : EventIndex) : List EventIndex → List EventIndex
  | [] => [e]
  | x :: xs =>
    if keyEq e x then x :: xs
    else if keyLt e x then e :: x :: xs
    else x :: btreeInsert e xs

/-- `HashSet<EventId>::insert`: add an id if it is not already present. -/
def idInsert (i : Nat) (l : List Nat) : List Nat := if i ∈ l then l else i :: l

/-- `HashMap<Coordinate, Timestamp>::get`. -/
def lookupCoord (c : Coordinate) : List (Coordinate × Nat) → Option Nat
  | [] => none
  | p :: rest => if p.1 = c then some p.2 else lookupCoord c rest

/-- `HashMap<Coordinate, Timestamp>::insert`: overwrite the binding of the key. -/
def coordInsert (c : Coordinate) (t : Nat) : List (Coordinate × Nat) → List (Coordinate × Nat)
  | [] => [(c, t)]
  | p :: rest => if p.1 = c then (c, t) :: rest else p :: coordInsert c t rest

/-- `internal_query` / `internal_parallel_query`: entries that are not
tombstoned and match the filter, in index order. -/
def internalQuery (idx : List EventIndex) (del : List Nat) (f : FilterIndex) : List EventIndex :=
  idx.filter (fun e => decide (e.event_id ∉ del) && matchEvent f e)

/-- Modelled from the spec (§4.5.5, §9): the filter induced by a coordinate
(`From<Coordinate> for Filter`, in the `nostr` crate, not under `src/`) has
the coordinate author as sole author, the coordinate kind as sole kind, and
a `d` tag constraint when the identifier is non-empty. -/
def coordinateFilter (c : Coordinate) : FilterIndex :=
  { authors := [pfxOf c.pubkey], kinds := [c.kind],
    generic_tags := if c.identifier = "" then [] else [("d", [c.identifier])] }

/-- The coordinate filter capped by the deletion timestamp (`filter.until(...)`). -/
def coordDelFilter (c : Coordinate) (t : Nat) : FilterIndex :=
  { coordinateFilter c with untl := some t }

/-- `EventIndex::from(&Event)`. -/
def eventToIndex (e : Event) : EventIndex :=
  { created_at := e.created_at, event_id := e.id, pubkey := pfxOf e.pubkey,
    kind := e.kind, tags := tagIndexes e.tags }

/-- One iteration of the replaceable-kind loop: an existing entry newer than
the incoming event vetoes storage; an entry at most as new is discarded. -/
def replStep (t : Nat) (acc : Bool × List Nat) (ev : EventIndex) : Bool × List Nat :=
  if t < ev.created_at then (false, acc.2)
  else if ev.created_at ≤ t then (acc.1, idInsert ev.event_id acc.2)
  else acc

/-- One iteration of the parameterized-replaceable loop: an existing entry at
least as new vetoes storage; a strictly older entry is discarded. -/
def paramStep (t : Nat) (acc : Bool × List Nat) (ev : EventIndex) : Bool × List Nat :=
  if t ≤ ev.created_at then (false, acc.2)
  else if ev.created_at < t then (acc.1, idInsert ev.event_id acc.2)
  else acc

/-- The scan used by the replaceable branch: same author prefix and kind. -/
def replScan (s : DatabaseIndexes) (e : Event) : List EventIndex :=
  internalQuery s.index s.deleted_ids { authors := [pfxOf e.pubkey], kinds := [e.kind] }

/-- The scan used by the parameterized-replaceable branch: same author prefix,
kind and `d` identifier. -/
def paramScan (s : DatabaseIndexes) (e : Event) (d : String) : List EventIndex :=
  internalQuery s.index s.deleted_ids
    { authors := [pfxOf e.pubkey], kinds := [e.kind], generic_tags := [("d", [d])] }

/-- One iteration of the `a`-tag loop of the deletion branch: for a coordinate
owned by the deletion author, record the deletion timestamp (overwriting) and
discard every entry matched by the coordinate filter up to that timestamp. -/
def coordStep (idx : List EventIndex) (del : List Nat) (pfx : List Nat) (t : Nat)
    (acc : List Nat × List (Coordinate × Nat)) (c : Coordinate) : List Nat × List (Coordinate × Nat) :=
  if pfxOf c.pubkey = pfx then
    ((internalQuery idx del (coordDelFilter c t)).foldl (fun td ev => idInsert ev.event_id td) acc.1,
     coordInsert c t acc.2)
  else acc

/-- The discard set contributed by the `e` tags of a deletion event: entries
matching the referenced ids up to the deletion timestamp, restricted to those
owned by the deletion author. -/
def etagDiscard (s : DatabaseIndexes) (e : Event) : List Nat :=
  if e.etags = [] then []
  else ((internalQuery s.index s.deleted_ids { ids := e.etags, untl := some e.created_at }).filter
          (fun ev => decide (ev.pubkey = pfxOf e.pubkey))).foldl
        (fun td ev => idInsert ev.event_id td) []

/-- Kind dispatch of `index_event` (lines 388-444): computes the storage
decision, the discard set and the updated coordinate-deletion map. -/
def admissionCore (s : DatabaseIndexes) (e : Event) : Bool × List Nat × List (Coordinate × Nat) :=
  if isReplaceable e.kind then
    let r := (replScan s e).foldl (replStep e.created_at) (true, [])
    (r.1, r.2, s.deleted_coordinates)
  else if isParameterizedReplaceable e.kind then
    match identifier e with
    | some d =>
      let r := (paramScan s e d).foldl (paramStep e.created_at) (true, [])
      (r.1, r.2, s.deleted_coordinates)
    | none => (false, [], s.deleted_coordinates)
  else if e.kind = 5 then
    let r := e.acoords.foldl (coordStep s.index s.deleted_ids (pfxOf e.pubkey) e.created_at)
      (etagDiscard s e, s.deleted_coordinates)
    (true, r.1, r.2)
  else (true, [], s.deleted_coordinates)

/-- Tail of `index_event` (lines 446-455): remove the discarded entries,
tombstone their ids, and insert the new entry when it should be stored. -/
def applyResult (s : DatabaseIndexes) (e : Event) (si : Bool) (td : List Nat)
    (dc : List (Coordinate × Nat)) : DatabaseIndexes :=
  let index1 := if td = [] then s.index else s.index.filter (fun x => decide (x.event_id ∉ td))
  let deleted1 := if td = [] then s.deleted_ids else td.foldl (fun d i => idInsert i d) s.deleted_ids
  let index2 := if si then btreeInsert (eventToIndex e) index1 else index1
  { index := index2, deleted_ids := deleted1, deleted_coordinates := dc }

/-- `DatabaseIndexes::index_event`, with the wall clock passed explicitly:
expired or ephemeral events are refused with an empty discard set; an already
tombstoned id is refused with itself as the discard set; otherwise the kind
dispatch decides, the discards are applied, and the decision is returned. -/
def indexEvent (s : DatabaseIndexes) (now : Nat) (e : Event) : DatabaseIndexes × EventIndexResult :=
  if isExpired e now || isEphemeral e.kind then (s, { to_store := false, to_discard := [] })
  else if e.id ∈ s.deleted_ids then (s, { to_store := false, to_discard := [e.id] })
  else
    let r := admissionCore s e
    (applyResult s e r.1 r.2.1 r.2.2, { to_store := r.1, to_discard := r.2.1 })

/-- Running state of `bulk_index`: the three collections plus the shared
discard set accumulated across the batch. -/
structure BulkState where
  index : List EventIndex
  deleted_ids : List Nat
  deleted_coordinates : List (Coordinate × Nat)
  to_discard : List Nat
deriving DecidableEq, Repr

/-- View of a bulk state as plain index state (the three collections the scans
read). -/
def BulkState.toIndexes (st : BulkState) : DatabaseIndexes :=
  { index := st.index, deleted_ids := st.deleted_ids, deleted_coordinates := st.deleted_coordinates }

/-- Kind dispatch of `index_raw_event` (lines 289-345): identical rules, but
discards accumulate into the shared batch discard set. -/
def rawAdmissionCore (st : BulkState) (e : Event) : Bool × List Nat × List (Coordinate × Nat) :=
  if isReplaceable e.kind then
    let r := (replScan st.toIndexes e).foldl (replStep e.created_at) (true, st.to_discard)
    (r.1, r.2, st.deleted_coordinates)
  else if isParameterizedReplaceable e.kind then
    match identifier e with
    | some d =>
      let r := (paramScan st.toIndexes e d).foldl (paramStep e.created_at) (true, st.to_discard)
      (r.1, r.2, st.deleted_coordinates)
    | none => (false, st.to_discard, st.deleted_coordinates)
  else if e.kind = 5 then
    let base := (etagDiscard st.toIndexes e).foldl (fun td i => idInsert i td) st.to_discard
    let r := e.acoords.foldl (coordStep st.index st.deleted_ids (pfxOf e.pubkey) e.created_at)
      (base, st.deleted_coordinates)
    (true, r.1, r.2)
  else (true, st.to_discard, st.deleted_coordinates)

/-- `DatabaseIndexes::index_raw_event`: an already tombstoned id is skipped; an
expired event has its id added to the shared discard set; otherwise the kind
dispatch decides and the entry is inserted immediately (removal happens once,
at the end of `bulk_index`). -/
def indexRawEvent (st : BulkState) (now : Nat) (e : Event) : BulkState :=
  if e.id ∈ st.deleted_ids then st
  else if isExpired e now then { st with to_discard := idInsert e.id st.to_discard }
  else
    let r := rawAdmissionCore st e
    { index := if r.1 then btreeInsert (eventToIndex e) st.index else st.index,
      deleted_ids := st.deleted_ids,
      deleted_coordinates := r.2.2,
      to_discard := r.2.1 }

/-- `DatabaseIndexes::bulk_index`: skip ephemeral events, run the raw admission
over the batch, then remove and tombstone every discarded id at once. -/
def bulkIndex (s : DatabaseIndexes) (now : Nat) (events : List Event) : DatabaseIndexes × List Nat :=
  let st := (events.filter (fun e => !isEphemeral e.kind)).foldl (fun st e => indexRawEvent st now e)
    { index := s.index, deleted_ids := s.deleted_ids,
      deleted_coordinates := s.deleted_coordinates, to_discard := [] }
  let index1 := if st.to_discard = [] then st.index
    else st.index.filter (fun x => decide (x.event_id ∉ st.to_discard))
  let deleted1 := if st.to_discard = [] then st.deleted_ids
    else st.to_discard.foldl (fun d i => idInsert i d) st.deleted_ids
  ({ index := index1, deleted_ids := deleted1, deleted_coordinates := st.deleted_coordinates },
   st.to_discard)

/-- The external `Filter` shape consumed by `query`: the compiled fields plus
an optional per-filter limit; authors are full public keys. -/
structure NostrFilter where
  ids : List Nat := []
  authors : List (List Nat) := []
  kinds : List Nat := []
  since : Option Nat := none
  untl : Option Nat := none
  limit : Option Nat := none
  generic_tags : List (String × List String) := []

/-- `FilterIndex::from(Filter)` (field names `until` and `Filter` are reserved in Lean; they are rendered `untl` and `NostrFilter`): map authors to prefixes, keep the rest. -/
def toFilterIndex (f : NostrFilter) : FilterIndex :=
  { ids := f.ids, authors := f.authors.map pfxOf, kinds := f.kinds,
    since := f.since, untl := f.untl, generic_tags := f.generic_tags }

/-- Modelled from the spec (§4.3): a filter is empty when no field is present
(`Filter::is_empty` lives in the `nostr` crate, not under `src/`). -/
def NostrFilter.isEmpty (f : NostrFilter) : Bool :=
  decide (f.ids = []) && decide (f.authors = []) && decide (f.kinds = [])
    && decide (f.generic_tags = []) && f.since.isNone && f.untl.isNone && f.limit.isNone

/-- A filter with both bounds present and `since > until` is skipped by `query`. -/
def skipFilter (f : NostrFilter) : Bool :=
  match f.since, f.untl with
  | some a, some b => decide (b < a)
  | _, _ => false

/-- One non-empty, non-skipped filter of `query`: scan, apply the limit in
index order, and union the matches into the accumulated ordered set. -/
def queryStep (idx : List EventIndex) (del : List Nat) (f : NostrFilter) (acc : List EventIndex) :
    List EventIndex :=
  let ms := internalQuery idx del (toFilterIndex f)
  let ms := match f.limit with | some n => ms.take n | none => ms
  ms.foldl (fun a x => btreeInsert x a) acc

/-- The filter loop of `query`: an empty filter short-circuits to every
entry's id in index order; otherwise matches accumulate into an ordered set
whose ids are returned at the end. -/
def queryAux (idx : List EventIndex) (del : List Nat) : List NostrFilter → List EventIndex → List Nat
  | [], acc => acc.map (fun x => x.event_id)
  | f :: fs, acc =>
    if f.isEmpty then idx.map (fun x => x.event_id)
    else if skipFilter f then queryAux idx del fs acc
    else queryAux idx del fs (queryStep idx del f acc)

/-- `DatabaseIndexes::query`. -/
def query (s : DatabaseIndexes) (fs : List NostrFilter) : List Nat :=
  queryAux s.index s.deleted_ids fs []

/-- `DatabaseIndexes::has_event_id_been_deleted`. -/
def hasEventIdBeenDeleted (s : DatabaseIndexes) (i : Nat) : Bool :=
  decide (i ∈ s.deleted_ids)

/-- `DatabaseIndexes::has_coordinate_been_deleted`: true when the stored
deletion timestamp for the coordinate is at least the queried timestamp. -/
def hasCoordinateBeenDeleted (s : DatabaseIndexes) (c : Coordinate) (t : Nat) : Bool :=
  match lookupCoord c s.deleted_coordinates with
  | some ts => decide (t ≤ ts)
  | none => false

/-- Fold a list of (wall clock, event) admissions from the empty index. -/
def runEvents (evs : List (Nat × Event)) : DatabaseIndexes :=
  evs.foldl (fun s p => (indexEvent s p.1 p.2).1) emptyIndexes


/-! Concrete inputs used by the witnesses and counterexamples below. -/

/-- Concrete kind-1 text note. -/
def exKindOne : Event :=
  { id := 7, pubkey := [2], created_at := 10, kind := 1, tags := [], etags := [],
    acoords := [], expiration := none }

/-- Concrete kind-0 (replaceable) event. -/
def exKindZeroA : Event :=
  { id := 9, pubkey := [3], created_at := 10, kind := 0, tags := [], etags := [],
    acoords := [], expiration := none }

/-- Older kind-0 event by the same author with a distinct id. -/
def exKindZeroB : Event :=
  { id := 11, pubkey := [3], created_at := 5, kind := 0, tags := [], etags := [],
    acoords := [], expiration := none }

/-- Event carrying an expiration timestamp in the past of wall clock 100. -/
def exExpired : Event :=
  { id := 1, pubkey := [1], created_at := 1, kind := 1, tags := [], etags := [],
    acoords := [], expiration := some 50 }

/-- First of two kind-1 events sharing id 5 at different timestamps. -/
def exDupA : Event :=
  { id := 5, pubkey := [4], created_at := 1, kind := 1, tags := [], etags := [],
    acoords := [], expiration := none }

/-- Second of two kind-1 events sharing id 5 at different timestamps. -/
def exDupB : Event :=
  { id := 5, pubkey := [4], created_at := 2, kind := 1, tags := [], etags := [],
    acoords := [], expiration := none }

/-- Parameterized-replaceable coordinate owned by public key [1]. -/
def exCoord : Coordinate := { kind := 32122, pubkey := [1], identifier := "x" }

/-- Deletion (kind 5) of exCoord by its owner at time 10. -/
def exDelTen : Event :=
  { id := 100, pubkey := [1], created_at := 10, kind := 5, tags := [], etags := [],
    acoords := [exCoord], expiration := none }

/-- Older deletion (time 5) of the same coordinate by the same owner. -/
def exDelFive : Event :=
  { id := 101, pubkey := [1], created_at := 5, kind := 5, tags := [], etags := [],
    acoords := [exCoord], expiration := none }

/-- Parameterized-replaceable (kind 32122) event with identifier x. -/
def exParamA : Event :=
  { id := 20, pubkey := [6], created_at := 10, kind := 32122, tags := [["d", "x"]],
    etags := [], acoords := [], expiration := none }

/-- Older parameterized-replaceable event in the same slot. -/
def exParamB : Event :=
  { id := 21, pubkey := [6], created_at := 5, kind := 32122, tags := [["d", "x"]],
    etags := [], acoords := [], expiration := none }

/-- Deletion by a different author ([9]) referencing exKindOne by e tag. -/
def exDelByOther : Event :=
  { id := 30, pubkey := [9], created_at := 20, kind := 5, tags := [], etags := [7],
    acoords := [], expiration := none }

/-- A non-empty query filter selecting kind 1. -/
def exKindFilter : NostrFilter := { kinds := [1] }

/-- The empty bulk-indexing state. -/
def emptyBulk : BulkState :=
  { index := [], deleted_ids := [], deleted_coordinates := [], to_discard := [] }

/-! Lemmas about the ordering key of the entry set. -/

theorem keyLt_irrefl (a : EventIndex) : ¬ keyLt a a := by
  unfold keyLt; omega

theorem keyLt_trans {a b c : EventIndex} (h1 : keyLt a b) (h2 : keyLt b c) : keyLt a c := by
  unfold keyLt at h1 h2 ⊢; omega

theorem keyLt_asymm {a b : EventIndex} (h : keyLt a b) : ¬ keyLt b a := by
  unfold keyLt at h ⊢; omega

theorem keyEq_refl (a : EventIndex) : keyEq a a := ⟨rfl, rfl⟩

theorem keyEq_symm {a b : EventIndex} (h : keyEq a b) : keyEq b a := ⟨h.1.symm, h.2.symm⟩

theorem key_trichotomy (a b : EventIndex) : keyLt a b ∨ keyEq a b ∨ keyLt b a := by
  unfold keyLt keyEq; omega

theorem keyLt_of_keyLt_of_keyEq {a b c : EventIndex} (h1 : keyLt a b) (h2 : keyEq b c) : keyLt a c := by
  unfold keyLt at h1 ⊢; unfold keyEq at h2; omega

theorem keyLt_of_keyEq_of_keyLt {a b c : EventIndex} (h1 : keyEq a b) (h2 : keyLt b c) : keyLt a c := by
  unfold keyLt at h2 ⊢; unfold keyEq at h1; omega

/-! Lemmas about `btreeInsert`. -/

theorem mem_btreeInsert_elim {y e : EventIndex} : ∀ {l : List EventIndex},
    y ∈ btreeInsert e l → y = e ∨ y ∈ l := by
  intro l
  induction l with
  | nil => simp [btreeInsert]
  | cons x xs ih =>
    simp only [btreeInsert]
    split
    · exact fun h => Or.inr h
    · split
      · intro h
        rcases List.mem_cons.mp h with h | h
        · exact Or.inl h
        · exact Or.inr h
      · intro h
        rcases List.mem_cons.mp h with h | h
        · exact Or.inr (h ▸ List.mem_cons_self x xs)
        · rcases ih h with h | h
          · exact Or.inl h
          · exact Or.inr (List.mem_cons_of_mem x h)

theorem mem_btreeInsert_of_mem {y e : EventIndex} : ∀ {l : List EventIndex},
    y ∈ l → y ∈ btreeInsert e l := by
  intro l
  induction l with
  | nil => simp
  | cons x xs ih =>
    simp only [btreeInsert]
    split
    · exact fun h => h
    · split
      · exact fun h => List.mem_cons_of_mem e h
      · intro h
        rcases List.mem_cons.mp h with h | h
        · exact h ▸ List.mem_cons_self x _
        · exact List.mem_cons_of_mem x (ih h)

theorem btreeInsert_pairwise {e : EventIndex} : ∀ {l : List EventIndex},
    l.Pairwise keyLt → (btreeInsert e l).Pairwise keyLt := by
  intro l
  induction l with
  | nil => simp [btreeInsert, List.pairwise_cons]
  | cons x xs ih =>
    intro hp
    rcases List.pairwise_cons.mp hp with ⟨hx, hxs⟩
    simp only [btreeInsert]
    split
    · exact hp
    · split
      · refine List.pairwise_cons.mpr ⟨?_, hp⟩
        intro y hy
        rcases List.mem_cons.mp hy with rfl | hy
        · assumption
        · exact keyLt_trans (by assumption) (hx y hy)
      · refine List.pairwise_cons.mpr ⟨?_, ih hxs⟩
        intro y hy
        rcases mem_btreeInsert_elim hy with rfl | hy
        · rcases key_trichotomy x y with h | h | h
          · exact h
          · exact absurd (keyEq_symm h) (by assumption)
          · exact absurd h (by assumption)
        · exact hx y hy

theorem btreeInsert_idem (e : EventIndex) : ∀ (l : List EventIndex),
    btreeInsert e (btreeInsert e l) = btreeInsert e l := by
  intro l
  induction l with
  | nil => simp [btreeInsert, keyEq_refl]
  | cons x xs ih =>
    simp only [btreeInsert]
    split
    · simp only [btreeInsert]; rw [if_pos (by assumption)]
    · split
      · simp only [btreeInsert]; rw [if_pos (keyEq_refl e)]
      · simp only [btreeInsert]
        rw [if_neg (by assumption), if_neg (by assumption), ih]

theorem btreeInsert_keyEq_noop {e x : EventIndex} : ∀ {l : List EventIndex},
    l.Pairwise keyLt → x ∈ l → keyEq x e → btreeInsert e l = l := by
  intro l
  induction l with
  | nil => simp
  | cons h t ih =>
    intro hp hm he
    rcases List.pairwise_cons.mp hp with ⟨hh, ht⟩
    rcases List.mem_cons.mp hm with rfl | hm
    · simp only [btreeInsert]
      rw [if_pos (keyEq_symm he)]
    · have hlt : keyLt h e := keyLt_of_keyLt_of_keyEq (hh x hm) he
      simp only [btreeInsert]
      rw [if_neg, if_neg]
      · rw [ih ht hm he]
      · exact keyLt_asymm hlt
      · intro hc
        exact keyLt_irrefl e (keyLt_of_keyEq_of_keyLt hc hlt)

/-! Lemmas about `idInsert` and the discard-set folds. -/

theorem mem_idInsert {x i : Nat} {l : List Nat} : x ∈ idInsert i l ↔ x = i ∨ x ∈ l := by
  unfold idInsert
  split
  · exact ⟨Or.inr, fun hc => hc.elim (fun hx => hx ▸ (by assumption)) id⟩
  · exact List.mem_cons

theorem idFold_mem (ms : List EventIndex) : ∀ (td : List Nat) (x : Nat),
    x ∈ ms.foldl (fun td ev => idInsert ev.event_id td) td ↔
      x ∈ td ∨ ∃ ev ∈ ms, ev.event_id = x := by
  induction ms with
  | nil => simp
  | cons ev ms ih =>
    intro td x
    simp only [List.foldl_cons, ih, mem_idInsert, List.mem_cons]
    constructor
    · rintro (⟨rfl | h⟩ | ⟨y, hy, rfl⟩)
      · exact Or.inr ⟨ev, Or.inl rfl, rfl⟩
      · exact Or.inl h
      · exact Or.inr ⟨y, Or.inr hy, rfl⟩
    · rintro (h | ⟨y, (rfl | hy), rfl⟩)
      · exact Or.inl (Or.inr h)
      · exact Or.inl (Or.inl rfl)
      · exact Or.inr ⟨y, hy, rfl⟩

theorem natFold_mem (td : List Nat) : ∀ (d : List Nat) (x : Nat),
    x ∈ td.foldl (fun d i => idInsert i d) d ↔ x ∈ d ∨ x ∈ td := by
  induction td with
  | nil => simp
  | cons i td ih =>
    intro d x
    simp only [List.foldl_cons, ih, mem_idInsert, List.mem_cons]
    tauto

/-! Lemmas about the coordinate-deletion map. -/

theorem lookupCoord_coordInsert (c c' : Coordinate) (t : Nat) : ∀ (l : List (Coordinate × Nat)),
    lookupCoord c (coordInsert c' t l) = if c' = c then some t else lookupCoord c l := by
  intro l
  induction l with
  | nil => simp [coordInsert, lookupCoord]
  | cons p rest ih =>
    simp only [coordInsert]
    split
    · rename_i hp
      by_cases hc : c' = c
      · simp [lookupCoord, hc]
      · simp [lookupCoord, hc, hp ▸ hc, ← hp]
    · simp only [lookupCoord]
      split
      · rename_i hp
        have : ¬ c' = c := by rintro rfl; exact (by assumption : ¬ _) hp
        simp [this, lookupCoord, hp]
      · exact ih

/-! Characterizations of the admission scans and loops. -/

theorem mem_internalQuery {idx : List EventIndex} {del : List Nat} {f : FilterIndex}
    {x : EventIndex} :
    x ∈ internalQuery idx del f ↔ x ∈ idx ∧ x.event_id ∉ del ∧ matchEvent f x = true := by
  simp [internalQuery, List.mem_filter, and_assoc]

theorem replFold_fst (t : Nat) : ∀ (ms : List EventIndex) (b : Bool) (td : List Nat),
    (ms.foldl (replStep t) (b, td)).1 = (b && ms.all (fun ev => decide (ev.created_at ≤ t))) := by
  intro ms
  induction ms with
  | nil => intro b td; simp
  | cons ev ms ih =>
    intro b td
    simp only [List.foldl_cons, List.all_cons, replStep]
    by_cases h : t < ev.created_at
    · rw [if_pos h, ih]
      have hd : decide (ev.created_at ≤ t) = false := by simp; omega
      simp [hd]
    · rw [if_neg h, if_pos (by omega : ev.created_at ≤ t), ih]
      have hd : decide (ev.created_at ≤ t) = true := by simp; omega
      simp [hd]

theorem replFold_snd (t : Nat) : ∀ (ms : List EventIndex) (b : Bool) (td : List Nat) (x : Nat),
    x ∈ (ms.foldl (replStep t) (b, td)).2 ↔
      x ∈ td ∨ ∃ ev ∈ ms, ev.created_at ≤ t ∧ ev.event_id = x := by
  intro ms
  induction ms with
  | nil => intro b td x; simp
  | cons ev ms ih =>
    intro b td x
    simp only [List.foldl_cons, replStep]
    by_cases h : t < ev.created_at
    · rw [if_pos h, ih]
      have hno : ¬ ev.created_at ≤ t := by omega
      simp [hno]
    · rw [if_neg h, if_pos (by omega : ev.created_at ≤ t), ih]
      simp only [mem_idInsert]
      have hle : ev.created_at ≤ t := by omega
      simp only [List.mem_cons]
      constructor
      · rintro ((rfl | hx) | ⟨y, hy, hyt, rfl⟩)
        · exact Or.inr ⟨ev, Or.inl rfl, hle, rfl⟩
        · exact Or.inl hx
        · exact Or.inr ⟨y, Or.inr hy, hyt, rfl⟩
      · rintro (hx | ⟨y, (rfl | hy), hyt, rfl⟩)
        · exact Or.inl (Or.inr hx)
        · exact Or.inl (Or.inl rfl)
        · exact Or.inr ⟨y, hy, hyt, rfl⟩

theorem paramFold_fst (t : Nat) : ∀ (ms : List EventIndex) (b : Bool) (td : List Nat),
    (ms.foldl (paramStep t) (b, td)).1 = (b && ms.all (fun ev => decide (ev.created_at < t))) := by
  intro ms
  induction ms with
  | nil => intro b td; simp
  | cons ev ms ih =>
    intro b td
    simp only [List.foldl_cons, List.all_cons, paramStep]
    by_cases h : t ≤ ev.created_at
    · rw [if_pos h, ih]
      have hd : decide (ev.created_at < t) = false := by simp; omega
      simp [hd]
    · rw [if_neg h, if_pos (by omega : ev.created_at < t), ih]
      have hd : decide (ev.created_at < t) = true := by simp; omega
      simp [hd]

theorem paramFold_snd (t : Nat) : ∀ (ms : List EventIndex) (b : Bool) (td : List Nat) (x : Nat),
    x ∈ (ms.foldl (paramStep t) (b, td)).2 ↔
      x ∈ td ∨ ∃ ev ∈ ms, ev.created_at < t ∧ ev.event_id = x := by
  intro ms
  induction ms with
  | nil => intro b td x; simp
  | cons ev ms ih =>
    intro b td x
    simp only [List.foldl_cons, paramStep]
    by_cases h : t ≤ ev.created_at
    · rw [if_pos h, ih]
      have hno : ¬ ev.created_at < t := by omega
      simp [hno]
    · rw [if_neg h, if_pos (by omega : ev.created_at < t), ih]
      simp only [mem_idInsert]
      have hlt : ev.created_at < t := by omega
      simp only [List.mem_cons]
      constructor
      · rintro ((rfl | hx) | ⟨y, hy, hyt, rfl⟩)
        · exact Or.inr ⟨ev, Or.inl rfl, hlt, rfl⟩
        · exact Or.inl hx
        · exact Or.inr ⟨y, Or.inr hy, hyt, rfl⟩
      · rintro (hx | ⟨y, (rfl | hy), hyt, rfl⟩)
        · exact Or.inl (Or.inr hx)
        · exact Or.inl (Or.inl rfl)
        · exact Or.inr ⟨y, hy, hyt, rfl⟩

theorem coordFold_fst_mem (idx : List EventIndex) (del : List Nat) (pfx : List Nat) (t : Nat) :
    ∀ (cs : List Coordinate) (td : List Nat) (dc : List (Coordinate × Nat)) (x : Nat),
      x ∈ (cs.foldl (coordStep idx del pfx t) (td, dc)).1 ↔
        x ∈ td ∨ ∃ c ∈ cs, pfxOf c.pubkey = pfx ∧
          ∃ ev ∈ internalQuery idx del (coordDelFilter c t), ev.event_id = x := by
  intro cs
  induction cs with
  | nil => simp
  | cons c cs ih =>
    intro td dc x
    simp only [List.foldl_cons, coordStep]
    by_cases h : pfxOf c.pubkey = pfx
    · rw [if_pos h, ih]
      simp only [idFold_mem, List.mem_cons]
      constructor
      · rintro ((hx | ⟨y, hy, rfl⟩) | ⟨c2, hc2, hp2, y, hy, rfl⟩)
        · exact Or.inl hx
        · exact Or.inr ⟨c, Or.inl rfl, h, y, hy, rfl⟩
        · exact Or.inr ⟨c2, Or.inr hc2, hp2, y, hy, rfl⟩
      · rintro (hx | ⟨c2, (rfl | hc2), hp2, y, hy, rfl⟩)
        · exact Or.inl (Or.inl hx)
        · exact Or.inl (Or.inr ⟨y, hy, rfl⟩)
        · exact Or.inr ⟨c2, hc2, hp2, y, hy, rfl⟩
    · rw [if_neg h, ih]
      simp only [List.mem_cons]
      constructor
      · rintro (hx | ⟨c2, hc2, hp2, hy⟩)
        · exact Or.inl hx
        · exact Or.inr ⟨c2, Or.inr hc2, hp2, hy⟩
      · rintro (hx | ⟨c2, (rfl | hc2), hp2, hy⟩)
        · exact Or.inl hx
        · exact absurd hp2 h
        · exact Or.inr ⟨c2, hc2, hp2, hy⟩

theorem coordFold_snd_stable (idx : List EventIndex) (del : List Nat) (pfx : List Nat) (t : Nat)
    (c : Coordinate) :
    ∀ (cs : List Coordinate) (td : List Nat) (dc : List (Coordinate × Nat)),
      lookupCoord c dc = some t →
      lookupCoord c (cs.foldl (coordStep idx del pfx t) (td, dc)).2 = some t := by
  intro cs
  induction cs with
  | nil => intro td dc h; simpa using h
  | cons c2 cs ih =>
    intro td dc h
    simp only [List.foldl_cons, coordStep]
    by_cases hp : pfxOf c2.pubkey = pfx
    · rw [if_pos hp]
      apply ih
      rw [lookupCoord_coordInsert]
      split <;> simp [h]
    · rw [if_neg hp]
      exact ih td dc h

theorem coordFold_snd_mem (idx : List EventIndex) (del : List Nat) (pfx : List Nat) (t : Nat)
    (c : Coordinate) (hc : pfxOf c.pubkey = pfx) :
    ∀ (cs : List Coordinate) (td : List Nat) (dc : List (Coordinate × Nat)),
      c ∈ cs →
      lookupCoord c (cs.foldl (coordStep idx del pfx t) (td, dc)).2 = some t := by
  intro cs
  induction cs with
  | nil => simp
  | cons c2 cs ih =>
    intro td dc hm
    rcases List.mem_cons.mp hm with rfl | hm
    · simp only [List.foldl_cons, coordStep]
      rw [if_pos hc]
      apply coordFold_snd_stable
      rw [lookupCoord_coordInsert]
      simp
    · simp only [List.foldl_cons, coordStep]
      by_cases hp : pfxOf c2.pubkey = pfx
      · rw [if_pos hp]; exact ih _ _ hm
      · rw [if_neg hp]; exact ih _ _ hm

/-! Characterizations of `match_event` for the compiled admission filters. -/

theorem matchEvent_repl (p : List Nat) (k : Nat) (x : EventIndex) :
    matchEvent { authors := [p], kinds := [k] } x = true ↔ x.kind = k ∧ x.pubkey = p := by
  simp [matchEvent, idsMatch, kindMatch, authorsMatch, tagMatch]

theorem matchEvent_param (p : List Nat) (k : Nat) (d : String) (x : EventIndex) :
    matchEvent { authors := [p], kinds := [k], generic_tags := [("d", [d])] } x = true ↔
      x.kind = k ∧ x.pubkey = p ∧ ∃ vs, tagsGet x.tags "d" = some vs ∧ d ∈ vs := by
  by_cases hx : x.tags = []
  · have hg : tagsGet x.tags "d" = none := by rw [hx]; rfl
    simp only [matchEvent, idsMatch, kindMatch, authorsMatch, tagMatch, hx,
      Bool.and_eq_true, Bool.or_eq_true, decide_eq_true_eq]
    simp only [tagsGet, List.find?_nil]
    simp
  · rcases hg : tagsGet x.tags "d" with _ | vs
    · simp [matchEvent, idsMatch, kindMatch, authorsMatch, tagMatch, hx, hg]
    · simp [matchEvent, idsMatch, kindMatch, authorsMatch, tagMatch, hx, hg, and_assoc]

theorem matchEvent_coord_pubkey {c : Coordinate} {t : Nat} {x : EventIndex}
    (h : matchEvent (coordDelFilter c t) x = true) : x.pubkey = pfxOf c.pubkey := by
  have ha : authorsMatch (coordDelFilter c t) x = true := by
    simp only [matchEvent, Bool.and_eq_true] at h
    exact h.1.2
  simp only [authorsMatch, coordDelFilter, coordinateFilter, Bool.or_eq_true,
    decide_eq_true_eq] at ha
  rcases ha with ha | ha
  · exact absurd ha (by simp)
  · simpa using ha

/-! Lemmas about the tail and the branches of `index_event`. -/

theorem applyResult_dc (s : DatabaseIndexes) (e : Event) (si : Bool) (td : List Nat)
    (dc : List (Coordinate × Nat)) : (applyResult s e si td dc).deleted_coordinates = dc := rfl

theorem applyResult_deleted_mem (s : DatabaseIndexes) (e : Event) (si : Bool) (td : List Nat)
    (dc : List (Coordinate × Nat)) (x : Nat) :
    x ∈ (applyResult s e si td dc).deleted_ids ↔ x ∈ s.deleted_ids ∨ x ∈ td := by
  simp only [applyResult]
  by_cases h : td = []
  · simp [h]
  · simp [h, natFold_mem]

theorem applyResult_index_mem_of (s : DatabaseIndexes) (e : Event) (si : Bool) (td : List Nat)
    (dc : List (Coordinate × Nat)) (x : EventIndex)
    (hx : x ∈ s.index) (hxd : x.event_id ∉ td) : x ∈ (applyResult s e si td dc).index := by
  simp only [applyResult]
  have h1 : x ∈ (if td = [] then s.index else s.index.filter (fun y => decide (y.event_id ∉ td))) := by
    by_cases h : td = []
    · simpa [h] using hx
    · simp only [if_neg h, List.mem_filter, decide_eq_true_eq]
      exact ⟨hx, hxd⟩
  by_cases hsi : si
  · simp only [hsi, if_pos]
    exact mem_btreeInsert_of_mem h1
  · simpa [hsi] using h1

theorem applyResult_pairwise (s : DatabaseIndexes) (e : Event) (si : Bool) (td : List Nat)
    (dc : List (Coordinate × Nat)) (h : s.index.Pairwise keyLt) :
    (applyResult s e si td dc).index.Pairwise keyLt := by
  simp only [applyResult]
  have h1 : (if td = [] then s.index
      else s.index.filter (fun y => decide (y.event_id ∉ td))).Pairwise keyLt := by
    by_cases ht : td = []
    · simpa [ht] using h
    · simp only [if_neg ht]
      exact List.Pairwise.sublist (List.filter_sublist _) h
  by_cases hsi : si
  · simp only [hsi, if_pos]
    exact btreeInsert_pairwise h1
  · simpa [hsi] using h1

theorem param_not_repl {k : Nat} (h : isParameterizedReplaceable k = true) :
    isReplaceable k = false := by
  simp only [isParameterizedReplaceable, decide_eq_true_eq] at h
  simp only [isReplaceable, decide_eq_false_iff_not]
  omega

theorem indexEvent_expired (s : DatabaseIndexes) (now : Nat) (e : Event)
    (h : isExpired e now = true) :
    indexEvent s now e = (s, { to_store := false, to_discard := [] }) := by
  simp [indexEvent, h]

theorem indexEvent_tombstoned (s : DatabaseIndexes) (now : Nat) (e : Event)
    (hexp : isExpired e now = false) (heph : isEphemeral e.kind = false)
    (h : e.id ∈ s.deleted_ids) :
    indexEvent s now e = (s, { to_store := false, to_discard := [e.id] }) := by
  simp [indexEvent, hexp, heph, h]

theorem indexEvent_normal (s : DatabaseIndexes) (now : Nat) (e : Event)
    (hexp : isExpired e now = false) (heph : isEphemeral e.kind = false)
    (hdel : e.id ∉ s.deleted_ids)
    (hr : isReplaceable e.kind = false) (hpr : isParameterizedReplaceable e.kind = false)
    (h5 : e.kind ≠ 5) :
    indexEvent s now e =
      ({ index := btreeInsert (eventToIndex e) s.index, deleted_ids := s.deleted_ids,
         deleted_coordinates := s.deleted_coordinates },
       { to_store := true, to_discard := [] }) := by
  simp [indexEvent, admissionCore, applyResult, hexp, heph, hdel, hr, hpr, h5]

theorem indexEvent_repl (s : DatabaseIndexes) (now : Nat) (e : Event)
    (hexp : isExpired e now = false) (heph : isEphemeral e.kind = false)
    (hdel : e.id ∉ s.deleted_ids) (hr : isReplaceable e.kind = true) :
    indexEvent s now e =
      (applyResult s e ((replScan s e).foldl (replStep e.created_at) (true, [])).1
        ((replScan s e).foldl (replStep e.created_at) (true, [])).2 s.deleted_coordinates,
       { to_store := ((replScan s e).foldl (replStep e.created_at) (true, [])).1,
         to_discard := ((replScan s e).foldl (replStep e.created_at) (true, [])).2 }) := by
  simp [indexEvent, admissionCore, hexp, heph, hdel, hr]

theorem indexEvent_param_some (s : DatabaseIndexes) (now : Nat) (e : Event) (d : String)
    (hexp : isExpired e now = false) (heph : isEphemeral e.kind = false)
    (hdel : e.id ∉ s.deleted_ids) (hpr : isParameterizedReplaceable e.kind = true)
    (hid : identifier e = some d) :
    indexEvent s now e =
      (applyResult s e ((paramScan s e d).foldl (paramStep e.created_at) (true, [])).1
        ((paramScan s e d).foldl (paramStep e.created_at) (true, [])).2 s.deleted_coordinates,
       { to_store := ((paramScan s e d).foldl (paramStep e.created_at) (true, [])).1,
         to_discard := ((paramScan s e d).foldl (paramStep e.created_at) (true, [])).2 }) := by
  simp [indexEvent, admissionCore, hexp, heph, hdel, hpr, param_not_repl hpr, hid]

theorem indexEvent_param_none (s : DatabaseIndexes) (now : Nat) (e : Event)
    (hexp : isExpired e now = false) (heph : isEphemeral e.kind = false)
    (hdel : e.id ∉ s.deleted_ids) (hpr : isParameterizedReplaceable e.kind = true)
    (hid : identifier e = none) :
    indexEvent s now e =
      (applyResult s e false [] s.deleted_coordinates,
       { to_store := false, to_discard := [] }) := by
  simp [indexEvent, admissionCore, hexp, heph, hdel, hpr, param_not_repl hpr, hid]

theorem indexEvent_deletion (s : DatabaseIndexes) (now : Nat) (e : Event)
    (hexp : isExpired e now = false) (hdel : e.id ∉ s.deleted_ids) (h5 : e.kind = 5) :
    indexEvent s now e =
      (applyResult s e true
        (e.acoords.foldl (coordStep s.index s.deleted_ids (pfxOf e.pubkey) e.created_at)
          (etagDiscard s e, s.deleted_coordinates)).1
        (e.acoords.foldl (coordStep s.index s.deleted_ids (pfxOf e.pubkey) e.created_at)
          (etagDiscard s e, s.deleted_coordinates)).2,
       { to_store := true,
         to_discard := (e.acoords.foldl
            (coordStep s.index s.deleted_ids (pfxOf e.pubkey) e.created_at)
            (etagDiscard s e, s.deleted_coordinates)).1 }) := by
  simp [indexEvent, admissionCore, hexp, hdel, h5, (by decide : isEphemeral 5 = false),
    (by decide : isReplaceable 5 = false), (by decide : isParameterizedReplaceable 5 = false)]

theorem mem_replScan {s : DatabaseIndexes} {e : Event} {x : EventIndex} :
    x ∈ replScan s e ↔
      x ∈ s.index ∧ x.event_id ∉ s.deleted_ids ∧ x.kind = e.kind ∧ x.pubkey = pfxOf e.pubkey := by
  rw [replScan, mem_internalQuery, matchEvent_repl]

theorem mem_paramScan {s : DatabaseIndexes} {e : Event} {d : String} {x : EventIndex} :
    x ∈ paramScan s e d ↔
      x ∈ s.index ∧ x.event_id ∉ s.deleted_ids ∧ x.kind = e.kind ∧ x.pubkey = pfxOf e.pubkey ∧
        ∃ vs, tagsGet x.tags "d" = some vs ∧ d ∈ vs := by
  rw [paramScan, mem_internalQuery, matchEvent_param]

/-! Claim C1. -/

/-- C1 counterexample: admitting a deletion of a coordinate at time 10 and then
an older deletion of the same coordinate at time 5 (both by the owner) lowers
the stored timestamp from 10 to 5, so has_coordinate_been_deleted(coord, 10)
flips from true to false: the claimed max-merge monotonicity fails. -/
theorem c1_counterexample :
    hasCoordinateBeenDeleted (runEvents [(0, exDelTen)]) exCoord 10 = true
      ∧ hasCoordinateBeenDeleted (runEvents [(0, exDelTen), (0, exDelFive)]) exCoord 10 = false
      ∧ lookupCoord exCoord (runEvents [(0, exDelTen)]).deleted_coordinates = some 10
      ∧ lookupCoord exCoord
          (runEvents [(0, exDelTen), (0, exDelFive)]).deleted_coordinates = some 5 := by
  decide

/-- C1 (amended): when an event-deletion admission records a coordinate owned
by its author, the stored timestamp for that coordinate becomes the deletion's
created_at unconditionally (last write wins, `HashMap::insert`), not the max
of the old and new timestamps; hence has_coordinate_been_deleted is not
monotone over deletion admissions by the owner. -/
theorem c1_amended_last_write_wins (s : DatabaseIndexes) (now : Nat) (e : Event) (c : Coordinate)
    (h5 : e.kind = 5) (hexp : isExpired e now = false) (hdel : e.id ∉ s.deleted_ids)
    (hc : c ∈ e.acoords) (hp : pfxOf c.pubkey = pfxOf e.pubkey) :
    lookupCoord c (indexEvent s now e).1.deleted_coordinates = some e.created_at := by
  rw [indexEvent_deletion s now e hexp hdel h5]
  exact coordFold_snd_mem s.index s.deleted_ids (pfxOf e.pubkey) e.created_at c hp
    e.acoords (etagDiscard s e) s.deleted_coordinates hc

/-- C1 witness: the amended statement evaluated on a concrete owner deletion. -/
theorem c1_witness :
    (exDelTen.kind = 5 ∧ isExpired exDelTen 0 = false ∧ exDelTen.id ∉ emptyIndexes.deleted_ids
        ∧ exCoord ∈ exDelTen.acoords ∧ pfxOf exCoord.pubkey = pfxOf exDelTen.pubkey)
      ∧ lookupCoord exCoord (indexEvent emptyIndexes 0 exDelTen).1.deleted_coordinates
          = some exDelTen.created_at :=
  ⟨by decide, c1_amended_last_write_wins emptyIndexes 0 exDelTen exCoord (by decide) (by decide)
    (by decide) (by decide) (by decide)⟩

/-! Claim C2. -/

/-- C2 counterexample: an event expired relative to the wall clock passed to
index_event is refused with an empty discard set, not one containing its id. -/
theorem c2_counterexample :
    isExpired exExpired 100 = true
      ∧ (indexEvent emptyIndexes 100 exExpired).2.to_store = false
      ∧ (indexEvent emptyIndexes 100 exExpired).2.to_discard = [] := by
  decide

/-- C2 (amended): in the raw bulk path (index_raw_event), an expired event that
is not already tombstoned is not inserted and its id is added to the shared
discard set; in index_event, an expired event yields to_store = false with an
empty discard set and the state is unchanged (so it is not inserted). -/
theorem c2_amended_expired_paths (s : DatabaseIndexes) (now : Nat) (e : Event) (st : BulkState)
    (hexp : isExpired e now = true) (hdel : e.id ∉ st.deleted_ids) :
    indexEvent s now e = (s, { to_store := false, to_discard := [] })
      ∧ indexRawEvent st now e = { st with to_discard := idInsert e.id st.to_discard }
      ∧ e.id ∈ (indexRawEvent st now e).to_discard
      ∧ (indexRawEvent st now e).index = st.index := by
  have hraw : indexRawEvent st now e = { st with to_discard := idInsert e.id st.to_discard } := by
    simp [indexRawEvent, hdel, hexp]
  refine ⟨indexEvent_expired s now e hexp, hraw, ?_, ?_⟩
  · rw [hraw]
    exact mem_idInsert.mpr (Or.inl rfl)
  · rw [hraw]

/-- C2 witness: the amended statement evaluated on a concrete expired event. -/
theorem c2_witness :
    (isExpired exExpired 100 = true ∧ exExpired.id ∉ emptyBulk.deleted_ids)
      ∧ indexEvent emptyIndexes 100 exExpired
          = (emptyIndexes, { to_store := false, to_discard := [] })
      ∧ indexRawEvent emptyBulk 100 exExpired
          = { emptyBulk with to_discard := idInsert exExpired.id emptyBulk.to_discard }
      ∧ exExpired.id ∈ (indexRawEvent emptyBulk 100 exExpired).to_discard
      ∧ (indexRawEvent emptyBulk 100 exExpired).index = emptyBulk.index :=
  ⟨by decide, c2_amended_expired_paths emptyIndexes 100 exExpired emptyBulk
    (by decide) (by decide)⟩

/-! Claim C3. -/

/-- C3 counterexample: re-admitting the same kind-1 event yields
to_store = true on the second admission, not false as claimed. -/
theorem c3_counterexample :
    (indexEvent (indexEvent emptyIndexes 0 exKindOne).1 0 exKindOne).2.to_store = true := by
  decide

/-- C3 (amended): re-admitting an identical event of a normal kind (not
replaceable, not parameterized-replaceable, not the deletion kind 5, not
ephemeral, not expired, not tombstoned) leaves the number of entries
unchanged, but the second admission returns to_store = true, not false. -/
theorem c3_amended_readmission (s : DatabaseIndexes) (now : Nat) (e : Event)
    (hexp : isExpired e now = false) (heph : isEphemeral e.kind = false)
    (hdel : e.id ∉ s.deleted_ids)
    (hr : isReplaceable e.kind = false) (hpr : isParameterizedReplaceable e.kind = false)
    (h5 : e.kind ≠ 5) :
    (indexEvent (indexEvent s now e).1 now e).2.to_store = true
      ∧ (indexEvent (indexEvent s now e).1 now e).1.index.length
          = (indexEvent s now e).1.index.length := by
  have h2 := indexEvent_normal
    { index := btreeInsert (eventToIndex e) s.index, deleted_ids := s.deleted_ids,
      deleted_coordinates := s.deleted_coordinates } now e hexp heph hdel hr hpr h5
  rw [indexEvent_normal s now e hexp heph hdel hr hpr h5]
  dsimp only
  rw [h2]
  refine ⟨rfl, ?_⟩
  simp only [btreeInsert_idem]

/-- C3 witness: the amended statement evaluated on a concrete kind-1 event. -/
theorem c3_witness :
    (isExpired exKindOne 0 = false ∧ isEphemeral exKindOne.kind = false
        ∧ exKindOne.id ∉ emptyIndexes.deleted_ids
        ∧ isReplaceable exKindOne.kind = false
        ∧ isParameterizedReplaceable exKindOne.kind = false ∧ exKindOne.kind ≠ 5)
      ∧ (indexEvent (indexEvent emptyIndexes 0 exKindOne).1 0 exKindOne).2.to_store = true
      ∧ (indexEvent (indexEvent emptyIndexes 0 exKindOne).1 0 exKindOne).1.index.length
          = (indexEvent emptyIndexes 0 exKindOne).1.index.length :=
  ⟨by decide, c3_amended_readmission emptyIndexes 0 exKindOne (by decide) (by decide) (by decide)
    (by decide) (by decide) (by decide)⟩

/-! Claim C4. -/

/-- C4 exhibit (code bug): re-admitting the same replaceable (kind 0) event
tombstones its own id and then re-inserts its entry, so afterwards the entry
with id 9 is in the index while 9 is also in the tombstone set: entries and
tombstones are not disjoint after this admission sequence from the empty
index. -/
theorem c4_exhibit :
    9 ∈ (indexEvent (indexEvent emptyIndexes 0 exKindZeroA).1 0 exKindZeroA).1.deleted_ids
      ∧ ∃ x ∈ (indexEvent (indexEvent emptyIndexes 0 exKindZeroA).1 0 exKindZeroA).1.index,
          x.event_id = 9 := by
  decide

/-! Claim C5. -/

/-- C5 counterexample: two admitted events share the id 5 (at timestamps 1 and
2), so insertion does not reject duplicates by event_id alone and two entries
in the index share an event_id: the entry count grows to 2. -/
theorem c5_counterexample :
    (indexEvent (indexEvent emptyIndexes 0 exDupA).1 0 exDupB).1.index.map
        (fun x => x.event_id) = [5, 5]
      ∧ (indexEvent (indexEvent emptyIndexes 0 exDupA).1 0 exDupB).1.index.length = 2 := by
  decide

/-- C5 (amended): insertion into the sorted entry set rejects duplicates by the
comparator key (created_at, event_id) silently: inserting an entry that agrees
with an existing entry on both created_at and event_id leaves the set
unchanged regardless of its other fields; an entry sharing only the event_id
at a different created_at is not rejected. -/
theorem c5_amended_dedup_by_key (l : List EventIndex) (e x : EventIndex)
    (hs : l.Pairwise keyLt) (hx : x ∈ l)
    (h1 : x.created_at = e.created_at) (h2 : x.event_id = e.event_id) :
    btreeInsert e l = l :=
  btreeInsert_keyEq_noop hs hx ⟨h1, h2⟩

/-- C5 witness: the amended statement evaluated on a concrete duplicate-key
insertion (same timestamp and id, different kind and author). -/
theorem c5_witness :
    ([eventToIndex exKindOne].Pairwise keyLt
        ∧ eventToIndex exKindOne ∈ [eventToIndex exKindOne]
        ∧ (eventToIndex exKindOne).created_at
            = ({ created_at := 10, event_id := 7, pubkey := [], kind := 2,
                 tags := [] } : EventIndex).created_at
        ∧ (eventToIndex exKindOne).event_id
            = ({ created_at := 10, event_id := 7, pubkey := [], kind := 2,
                 tags := [] } : EventIndex).event_id)
      ∧ btreeInsert { created_at := 10, event_id := 7, pubkey := [], kind := 2, tags := [] }
          [eventToIndex exKindOne] = [eventToIndex exKindOne] :=
  ⟨by decide, c5_amended_dedup_by_key [eventToIndex exKindOne]
    { created_at := 10, event_id := 7, pubkey := [], kind := 2, tags := [] }
    (eventToIndex exKindOne) (by decide) (by decide) (by decide) (by decide)⟩

/-! Claim C6. -/

/-- C6: replaceable-kind admission. Existing entries are the scan results:
entries with the same author prefix and kind that are not tombstoned. The
incoming event is refused exactly when such an entry is strictly newer; every
such entry at most as new is discarded; a strictly newer one is not. -/
theorem c6_replaceable_admission (s : DatabaseIndexes) (now : Nat) (e : Event)
    (hr : isReplaceable e.kind = true) (heph : isEphemeral e.kind = false)
    (hexp : isExpired e now = false) (hdel : e.id ∉ s.deleted_ids)
    (hn : (s.index.map (fun x => x.event_id)).Nodup) :
    ((indexEvent s now e).2.to_store = false ↔
        ∃ x ∈ s.index, x.event_id ∉ s.deleted_ids ∧ x.pubkey = pfxOf e.pubkey ∧
          x.kind = e.kind ∧ e.created_at < x.created_at)
      ∧ (∀ x ∈ s.index, x.event_id ∉ s.deleted_ids → x.pubkey = pfxOf e.pubkey →
          x.kind = e.kind → x.created_at ≤ e.created_at →
          x.event_id ∈ (indexEvent s now e).2.to_discard)
      ∧ (∀ x ∈ s.index, x.event_id ∉ s.deleted_ids → x.pubkey = pfxOf e.pubkey →
          x.kind = e.kind → e.created_at < x.created_at →
          x.event_id ∉ (indexEvent s now e).2.to_discard) := by
  rw [indexEvent_repl s now e hexp heph hdel hr]
  dsimp only
  refine ⟨?_, ?_, ?_⟩
  · rw [replFold_fst]
    simp only [Bool.true_and]
    have hiff : ((replScan s e).all (fun ev => decide (ev.created_at ≤ e.created_at)) = false)
        ↔ ¬ ∀ x ∈ replScan s e, x.created_at ≤ e.created_at := by
      rw [Bool.eq_false_iff, Ne, List.all_eq_true]
      simp
    rw [hiff]
    push_neg
    constructor
    · rintro ⟨x, hx, hlt⟩
      rcases mem_replScan.mp hx with ⟨hxi, hxd, hxk, hxp⟩
      exact ⟨x, hxi, hxd, hxp, hxk, hlt⟩
    · rintro ⟨x, hxi, hxd, hxp, hxk, hlt⟩
      exact ⟨x, mem_replScan.mpr ⟨hxi, hxd, hxk, hxp⟩, hlt⟩
  · intro x hx hxd hxp hxk hle
    exact (replFold_snd e.created_at (replScan s e) true [] x.event_id).mpr
      (Or.inr ⟨x, mem_replScan.mpr ⟨hx, hxd, hxk, hxp⟩, hle, rfl⟩)
  · intro x hx hxd hxp hxk hlt hmem
    rcases (replFold_snd e.created_at (replScan s e) true [] x.event_id).mp hmem with
      h | ⟨y, hy, hle, hid⟩
    · simp at h
    · rcases mem_replScan.mp hy with ⟨hyi, _, _, _⟩
      have hyx : y = x := List.inj_on_of_nodup_map hn hyi hx hid
      subst hyx
      omega

/-- C6 witness: the replaceable rules evaluated on a concrete two-event
scenario (an existing newer kind-0 entry vetoes an older incoming one). -/
theorem c6_witness :
    (isReplaceable exKindZeroB.kind = true ∧ isEphemeral exKindZeroB.kind = false
        ∧ isExpired exKindZeroB 0 = false
        ∧ exKindZeroB.id ∉ (runEvents [(0, exKindZeroA)]).deleted_ids
        ∧ ((runEvents [(0, exKindZeroA)]).index.map (fun x => x.event_id)).Nodup)
      ∧ (((indexEvent (runEvents [(0, exKindZeroA)]) 0 exKindZeroB).2.to_store = false ↔
            ∃ x ∈ (runEvents [(0, exKindZeroA)]).index,
              x.event_id ∉ (runEvents [(0, exKindZeroA)]).deleted_ids ∧
                x.pubkey = pfxOf exKindZeroB.pubkey ∧
                x.kind = exKindZeroB.kind ∧ exKindZeroB.created_at < x.created_at)
          ∧ (∀ x ∈ (runEvents [(0, exKindZeroA)]).index,
              x.event_id ∉ (runEvents [(0, exKindZeroA)]).deleted_ids →
              x.pubkey = pfxOf exKindZeroB.pubkey → x.kind = exKindZeroB.kind →
              x.created_at ≤ exKindZeroB.created_at →
              x.event_id ∈ (indexEvent (runEvents [(0, exKindZeroA)]) 0 exKindZeroB).2.to_discard)
          ∧ (∀ x ∈ (runEvents [(0, exKindZeroA)]).index,
              x.event_id ∉ (runEvents [(0, exKindZeroA)]).deleted_ids →
              x.pubkey = pfxOf exKindZeroB.pubkey → x.kind = exKindZeroB.kind →
              exKindZeroB.created_at < x.created_at →
              x.event_id ∉
                (indexEvent (runEvents [(0, exKindZeroA)]) 0 exKindZeroB).2.to_discard)) :=
  ⟨by decide, c6_replaceable_admission (runEvents [(0, exKindZeroA)]) 0 exKindZeroB
    (by decide) (by decide) (by decide) (by decide) (by decide)⟩

/-! Claim C7. -/

/-- C7: parameterized-replaceable admission. With no (non-empty) d identifier
the event is refused and nothing is discarded; with identifier d, an existing
same-slot entry at least as new forces refusal, and every same-slot entry
strictly older is discarded (ties favor the incumbent). -/
theorem c7_param_admission (s : DatabaseIndexes) (now : Nat) (e : Event)
    (hpr : isParameterizedReplaceable e.kind = true) (heph : isEphemeral e.kind = false)
    (hexp : isExpired e now = false) (hdel : e.id ∉ s.deleted_ids) :
    (identifier e = none →
        (indexEvent s now e).2.to_store = false ∧ (indexEvent s now e).2.to_discard = [])
      ∧ ∀ d, identifier e = some d →
          ((∀ x ∈ s.index, x.event_id ∉ s.deleted_ids → x.pubkey = pfxOf e.pubkey →
              x.kind = e.kind → (∃ vs, tagsGet x.tags "d" = some vs ∧ d ∈ vs) →
              e.created_at ≤ x.created_at → (indexEvent s now e).2.to_store = false)
            ∧ (∀ x ∈ s.index, x.event_id ∉ s.deleted_ids → x.pubkey = pfxOf e.pubkey →
              x.kind = e.kind → (∃ vs, tagsGet x.tags "d" = some vs ∧ d ∈ vs) →
              x.created_at < e.created_at →
              x.event_id ∈ (indexEvent s now e).2.to_discard)) := by
  constructor
  · intro hid
    rw [indexEvent_param_none s now e hexp heph hdel hpr hid]
    exact ⟨rfl, rfl⟩
  · intro d hid
    rw [indexEvent_param_some s now e d hexp heph hdel hpr hid]
    dsimp only
    constructor
    · intro x hx hxd hxp hxk hxt hge
      rw [paramFold_fst]
      simp only [Bool.true_and]
      rw [Bool.eq_false_iff, Ne, List.all_eq_true]
      intro hall
      have := hall x (mem_paramScan.mpr ⟨hx, hxd, hxk, hxp, hxt⟩)
      simp only [decide_eq_true_eq] at this
      omega
    · intro x hx hxd hxp hxk hxt hlt
      exact (paramFold_snd e.created_at (paramScan s e d) true [] x.event_id).mpr
        (Or.inr ⟨x, mem_paramScan.mpr ⟨hx, hxd, hxk, hxp, hxt⟩, hlt, rfl⟩)

/-- C7 witness: the parameterized-replaceable rules evaluated on a concrete
two-event scenario in the same (author, kind, d) slot. -/
theorem c7_witness :
    (isParameterizedReplaceable exParamB.kind = true ∧ isEphemeral exParamB.kind = false
        ∧ isExpired exParamB 0 = false
        ∧ exParamB.id ∉ (runEvents [(0, exParamA)]).deleted_ids)
      ∧ ((identifier exParamB = none →
            (indexEvent (runEvents [(0, exParamA)]) 0 exParamB).2.to_store = false ∧
              (indexEvent (runEvents [(0, exParamA)]) 0 exParamB).2.to_discard = [])
          ∧ ∀ d, identifier exParamB = some d →
            ((∀ x ∈ (runEvents [(0, exParamA)]).index,
                x.event_id ∉ (runEvents [(0, exParamA)]).deleted_ids →
                x.pubkey = pfxOf exParamB.pubkey → x.kind = exParamB.kind →
                (∃ vs, tagsGet x.tags "d" = some vs ∧ d ∈ vs) →
                exParamB.created_at ≤ x.created_at →
                (indexEvent (runEvents [(0, exParamA)]) 0 exParamB).2.to_store = false)
              ∧ (∀ x ∈ (runEvents [(0, exParamA)]).index,
                x.event_id ∉ (runEvents [(0, exParamA)]).deleted_ids →
                x.pubkey = pfxOf exParamB.pubkey → x.kind = exParamB.kind →
                (∃ vs, tagsGet x.tags "d" = some vs ∧ d ∈ vs) →
                x.created_at < exParamB.created_at →
                x.event_id ∈
                  (indexEvent (runEvents [(0, exParamA)]) 0 exParamB).2.to_discard))) :=
  ⟨by decide, c7_param_admission (runEvents [(0, exParamA)]) 0 exParamB
    (by decide) (by decide) (by decide) (by decide)⟩

/-! Claim C8. -/

theorem deletion_discard_authored (s : DatabaseIndexes) (e : Event) (i : Nat)
    (hi : i ∈ (e.acoords.foldl (coordStep s.index s.deleted_ids (pfxOf e.pubkey) e.created_at)
        (etagDiscard s e, s.deleted_coordinates)).1) :
    ∃ y ∈ s.index, y.event_id = i ∧ y.pubkey = pfxOf e.pubkey := by
  rw [coordFold_fst_mem] at hi
  rcases hi with hi | ⟨c, hc, hpc, y, hy, rfl⟩
  · unfold etagDiscard at hi
    by_cases he : e.etags = []
    · rw [if_pos he] at hi
      simp at hi
    · rw [if_neg he, idFold_mem] at hi
      rcases hi with hi | ⟨y, hy, rfl⟩
      · simp at hi
      · rcases List.mem_filter.mp hy with ⟨hy1, hy2⟩
        rcases mem_internalQuery.mp hy1 with ⟨hyi, _, _⟩
        exact ⟨y, hyi, rfl, by simpa using hy2⟩
  · rcases mem_internalQuery.mp hy with ⟨hyi, _, hym⟩
    exact ⟨y, hyi, rfl, (matchEvent_coord_pubkey hym).trans hpc⟩

/-- C8: deletion authority. A kind-5 admission by author B leaves every entry
whose author prefix differs from B's prefix in place and does not tombstone
its id (assuming entry ids are unique, as the intended invariant I1 states),
whether the deletion references targets by e tag or by a-tag coordinate. -/
theorem c8_deletion_authority (s : DatabaseIndexes) (now : Nat) (e : Event) (x : EventIndex)
    (h5 : e.kind = 5) (hx : x ∈ s.index) (hp : x.pubkey ≠ pfxOf e.pubkey)
    (hn : (s.index.map (fun y => y.event_id)).Nodup) :
    x ∈ (indexEvent s now e).1.index
      ∧ ((x.event_id ∈ (indexEvent s now e).1.deleted_ids) ↔ x.event_id ∈ s.deleted_ids) := by
  by_cases hexp : isExpired e now = true
  · rw [indexEvent_expired s now e hexp]
    exact ⟨hx, Iff.rfl⟩
  · have hexp2 : isExpired e now = false := Bool.eq_false_iff.mpr hexp
    by_cases hdel : e.id ∈ s.deleted_ids
    · rw [indexEvent_tombstoned s now e hexp2 (by rw [h5]; decide) hdel]
      exact ⟨hx, Iff.rfl⟩
    · rw [indexEvent_deletion s now e hexp2 hdel h5]
      dsimp only
      have hnd : x.event_id ∉
          (e.acoords.foldl (coordStep s.index s.deleted_ids (pfxOf e.pubkey) e.created_at)
            (etagDiscard s e, s.deleted_coordinates)).1 := by
        intro hmem
        rcases deletion_discard_authored s e x.event_id hmem with ⟨y, hyi, hyid, hypk⟩
        have hyx : y = x := List.inj_on_of_nodup_map hn hyi hx hyid
        exact hp (hyx ▸ hypk)
      constructor
      · exact applyResult_index_mem_of _ _ _ _ _ x hx hnd
      · rw [applyResult_deleted_mem]
        constructor
        · rintro (h | h)
          · exact h
          · exact absurd h hnd
        · exact Or.inl

/-- C8 witness: a deletion by author [9] targeting (by e tag) an entry authored
by [2] leaves that entry in place and untombstoned. -/
theorem c8_witness :
    (exDelByOther.kind = 5 ∧ eventToIndex exKindOne ∈ (runEvents [(0, exKindOne)]).index
        ∧ (eventToIndex exKindOne).pubkey ≠ pfxOf exDelByOther.pubkey
        ∧ ((runEvents [(0, exKindOne)]).index.map (fun y => y.event_id)).Nodup)
      ∧ eventToIndex exKindOne
          ∈ (indexEvent (runEvents [(0, exKindOne)]) 0 exDelByOther).1.index
      ∧ (((eventToIndex exKindOne).event_id
            ∈ (indexEvent (runEvents [(0, exKindOne)]) 0 exDelByOther).1.deleted_ids) ↔
          (eventToIndex exKindOne).event_id ∈ (runEvents [(0, exKindOne)]).deleted_ids) :=
  ⟨by decide, c8_deletion_authority (runEvents [(0, exKindOne)]) 0 exDelByOther
    (eventToIndex exKindOne) (by decide) (by decide) (by decide) (by decide)⟩

/-! Claim C9: sortedness infrastructure. -/

theorem indexEvent_pairwise (s : DatabaseIndexes) (now : Nat) (e : Event)
    (h : s.index.Pairwise keyLt) : (indexEvent s now e).1.index.Pairwise keyLt := by
  unfold indexEvent
  split
  · exact h
  · split
    · exact h
    · exact applyResult_pairwise _ _ _ _ _ h

theorem runEvents_pairwise (evs : List (Nat × Event)) : (runEvents evs).index.Pairwise keyLt := by
  unfold runEvents
  suffices h : ∀ (l : List (Nat × Event)) (s : DatabaseIndexes), s.index.Pairwise keyLt →
      (l.foldl (fun s p => (indexEvent s p.1 p.2).1) s).index.Pairwise keyLt by
    exact h evs emptyIndexes (by simp [emptyIndexes])
  intro l
  induction l with
  | nil => intro s hs; exact hs
  | cons p l ih =>
    intro s hs
    exact ih _ (indexEvent_pairwise _ _ _ hs)

theorem btreeFold_pairwise (ms : List EventIndex) : ∀ (acc : List EventIndex),
    acc.Pairwise keyLt → (ms.foldl (fun a x => btreeInsert x a) acc).Pairwise keyLt := by
  induction ms with
  | nil => intro acc h; exact h
  | cons m ms ih => intro acc h; exact ih _ (btreeInsert_pairwise h)

theorem btreeFold_mem (ms : List EventIndex) : ∀ (acc : List EventIndex) (y : EventIndex),
    y ∈ ms.foldl (fun a x => btreeInsert x a) acc → y ∈ acc ∨ y ∈ ms := by
  induction ms with
  | nil => intro acc y h; exact Or.inl h
  | cons m ms ih =>
    intro acc y h
    rcases ih _ y h with h2 | h2
    · rcases mem_btreeInsert_elim h2 with rfl | h3
      · exact Or.inr (List.mem_cons_self _ _)
      · exact Or.inl h3
    · exact Or.inr (List.mem_cons_of_mem _ h2)

theorem queryStep_pairwise (idx : List EventIndex) (del : List Nat) (f : NostrFilter)
    (acc : List EventIndex) (h : acc.Pairwise keyLt) :
    (queryStep idx del f acc).Pairwise keyLt :=
  btreeFold_pairwise _ _ h

theorem queryStep_mem (idx : List EventIndex) (del : List Nat) (f : NostrFilter)
    (acc : List EventIndex) (y : EventIndex) (hy : y ∈ queryStep idx del f acc) :
    y ∈ acc ∨ y ∈ idx := by
  unfold queryStep at hy
  rcases btreeFold_mem _ _ _ hy with h | h
  · exact Or.inl h
  · have h2 : y ∈ internalQuery idx del (toFilterIndex f) := by
      cases hl : f.limit with
      | some n =>
        rw [hl] at h
        exact (List.take_sublist n _).subset h
      | none =>
        rw [hl] at h
        exact h
    exact Or.inr (mem_internalQuery.mp h2).1

theorem queryAux_spec (idx : List EventIndex) (del : List Nat) (hidx : idx.Pairwise keyLt) :
    ∀ (fs : List NostrFilter) (acc : List EventIndex),
      acc.Pairwise keyLt → (∀ a ∈ acc, a ∈ idx) →
      ∃ es : List EventIndex, queryAux idx del fs acc = es.map (fun x => x.event_id)
        ∧ es.Pairwise keyLt ∧ ∀ a ∈ es, a ∈ idx := by
  intro fs
  induction fs with
  | nil =>
    intro acc hp hm
    exact ⟨acc, rfl, hp, hm⟩
  | cons f fs ih =>
    intro acc hp hm
    simp only [queryAux]
    split
    · exact ⟨idx, rfl, hidx, fun a ha => ha⟩
    · split
      · exact ih acc hp hm
      · refine ih (queryStep idx del f acc) (queryStep_pairwise _ _ _ _ hp) ?_
        intro a ha
        rcases queryStep_mem _ _ _ _ _ ha with h | h
        · exact hm a h
        · exact h

/-- C9: query ordering. On any state reached by a sequence of admissions from
the empty index whose entry ids are pairwise distinct: an empty filter returns
the id of every entry in index order; the index is sorted by the comparator
(created_at descending, event_id ascending on ties); and for any filter list
the combined result is the id image of a list of entries that is sorted in the
index total order, drawn from the index, and the returned ids are
de-duplicated. -/
theorem c9_query_order (evs : List (Nat × Event)) (fs : List NostrFilter)
    (hn : ((runEvents evs).index.map (fun x => x.event_id)).Nodup) :
    query (runEvents evs) [{}] = (runEvents evs).index.map (fun x => x.event_id)
      ∧ (runEvents evs).index.Pairwise keyLt
      ∧ ∃ es : List EventIndex,
          query (runEvents evs) fs = es.map (fun x => x.event_id)
            ∧ es.Pairwise keyLt ∧ (∀ a ∈ es, a ∈ (runEvents evs).index)
            ∧ (query (runEvents evs) fs).Nodup := by
  have hpw := runEvents_pairwise evs
  refine ⟨rfl, hpw, ?_⟩
  rcases queryAux_spec (runEvents evs).index (runEvents evs).deleted_ids hpw fs []
    List.Pairwise.nil (by simp) with ⟨es, hq, hpe, hme⟩
  refine ⟨es, hq, hpe, hme, ?_⟩
  have hne : es.Pairwise (fun a b => a.event_id ≠ b.event_id) := by
    refine List.Pairwise.imp_of_mem ?_ hpe
    intro a b ha hb hlt heq
    have hab : a = b := List.inj_on_of_nodup_map hn (hme a ha) (hme b hb) heq
    exact keyLt_irrefl a (hab ▸ hlt)
  have hq2 : query (runEvents evs) fs = es.map (fun x => x.event_id) := hq
  rw [hq2]
  exact List.pairwise_map.mpr hne

/-- C9 witness: the query-order statement evaluated on a one-event state. -/
theorem c9_witness :
    ((runEvents [(0, exKindOne)]).index.map (fun x => x.event_id)).Nodup
      ∧ (query (runEvents [(0, exKindOne)]) [{}]
            = (runEvents [(0, exKindOne)]).index.map (fun x => x.event_id)
          ∧ (runEvents [(0, exKindOne)]).index.Pairwise keyLt
          ∧ ∃ es : List EventIndex,
              query (runEvents [(0, exKindOne)]) [exKindFilter] = es.map (fun x => x.event_id)
                ∧ es.Pairwise keyLt ∧ (∀ a ∈ es, a ∈ (runEvents [(0, exKindOne)]).index)
                ∧ (query (runEvents [(0, exKindOne)]) [exKindFilter]).Nodup) :=
  ⟨by decide, c9_query_order [(0, exKindOne)] [exKindFilter] (by decide)⟩

/-! Claim C10. -/

/-- C10: in a compiled filter, an empty ids set (respectively authors set,
kinds set) is treated as no constraint: the corresponding check of match_event
accepts every entry, so a non-empty filter listing zero ids, zero authors, or
zero kinds excludes nothing through that check. -/
theorem c10_empty_sets_no_constraint (f : FilterIndex) (x : EventIndex) :
    (f.ids = [] → idsMatch f x = true)
      ∧ (f.authors = [] → authorsMatch f x = true)
      ∧ (f.kinds = [] → kindMatch f x.kind = true) := by
  refine ⟨fun h => ?_, fun h => ?_, fun h => ?_⟩ <;>
    simp [idsMatch, authorsMatch, kindMatch, h]

/-- C10 witness: a filter listing only a kind constraint passes the ids,
authors and kinds checks of a kind-1 entry where the respective sets are
empty. -/
theorem c10_witness :
    idsMatch { kinds := [1] } (eventToIndex exKindOne) = true
      ∧ authorsMatch { kinds := [1] } (eventToIndex exKindOne) = true
      ∧ kindMatch { ids := [7] } (eventToIndex exKindOne).kind = true :=
  ⟨(c10_empty_sets_no_constraint { kinds := [1] } (eventToIndex exKindOne)).1 rfl,
   (c10_empty_sets_no_constraint { kinds := [1] } (eventToIndex exKindOne)).2.1 rfl,
   (c10_empty_sets_no_constraint { ids := [7] } (eventToIndex exKindOne)).2.2 rfl⟩
